import Mathlib

/-!
Shallow embedding of `dbms/src/Processors/Executors/PipelineExecutor.h`
(class `PipelineExecutor`): the task queue, the node/edge data model and the
constructor-level behaviour visible in the header, together with models of
the members whose bodies live in the accompanying translation unit
(`buildGraph`, `execute`, `cancel`), which are built from the specification.
-/

namespace PipelineExec

/-- Embedding of `struct ExecutionState` (PipelineExecutor.h, lines 80-93).
The `std::exception_ptr exception` slot is an `Option Nat` (a fault identity
or none), the `std::function job` closure is an `Option Nat` (a closure
identity or none, i.e. the default-constructed empty function), the
`IProcessor *` is the processor identity as a `Nat`. -/
structure ExecutionState where
  exception : Option Nat := none
  job : Option Nat := none
  processor : Nat := 0
  processors_id : Nat := 0
  has_quota : Bool := false
  num_executed_jobs : Nat := 0
  execution_time_ns : Nat := 0
  preparation_time_ns : Nat := 0
deriving DecidableEq, Repr

/-- Embedding of `class TaskQueue` (PipelineExecutor.h, lines 137-194).
`queues` is the `std::vector<std::queue<ExecutionState *>>` (front of each
queue is the head of the list); `size_` and `quota_` are the two counters. -/
structure TaskQueue where
  queues : List (List ExecutionState)
  size_ : Nat := 0
  quota_ : Nat := 0
deriving DecidableEq, Repr

/-- `TaskQueue::init`: `queues.resize(num_threads)`. -/
def TaskQueue.init (num_threads : Nat) : TaskQueue :=
  { queues := List.replicate num_threads [] }

/-- `TaskQueue::push` (lines 142-150): enqueue at the back of
`queues[thread_num]`, `++size_`, and `++quota_` when `state->has_quota`. -/
def TaskQueue.push (tq : TaskQueue) (state : ExecutionState) (thread_num : Nat) :
    TaskQueue :=
  { queues := tq.queues.set thread_num (tq.queues.getD thread_num [] ++ [state])
    size_ := tq.size_ + 1
    quota_ := if state.has_quota then tq.quota_ + 1 else tq.quota_ }

/-- The `for (size_t i = 0; i < queues.size(); ++i)` loop inside
`getAnyThreadWithTasks` (lines 157-165): check `queues[from_thread]`, else
advance `from_thread` by one wrapping at `queues.size()`; after
`queues.size()` iterations fall through to the trailing throw (line 167). -/
def TaskQueue.scanLoop (queues : List (List ExecutionState)) :
    Nat → Nat → Except String Nat
  | _, 0 => .error "TaskQueue is empty."
  | from_thread, fuel + 1 =>
    if (queues.getD from_thread []).isEmpty = false then
      .ok from_thread
    else
      TaskQueue.scanLoop queues
        (if queues.length ≤ from_thread + 1 then 0 else from_thread + 1) fuel

/-- `TaskQueue::getAnyThreadWithTasks` (lines 152-168): throws the
logical error when `size_ == 0`, otherwise runs the wrapping scan. -/
def TaskQueue.getAnyThreadWithTasks (tq : TaskQueue) (from_thread : Nat) :
    Except String Nat :=
  if tq.size_ = 0 then .error "TaskQueue is empty."
  else TaskQueue.scanLoop tq.queues from_thread tq.queues.length

/-- `TaskQueue::pop` (lines 170-183): find a thread with tasks, take the
front of its queue, `--size_`, and — exactly as the source reads on line
180 — `++quota_` when the popped state has the quota flag (the source
increments, it does not decrement, on pop). `front()` on an empty queue is
undefined behaviour in the source; it is mapped to an error value here and
shown unreachable under the size invariant. -/
def TaskQueue.pop (tq : TaskQueue) (thread_num : Nat) :
    Except String (ExecutionState × TaskQueue) :=
  match tq.getAnyThreadWithTasks thread_num with
  | .error e => .error e
  | .ok thread_with_tasks =>
    match tq.queues.getD thread_with_tasks [] with
    | [] => .error "front of empty queue"
    | state :: rest =>
      .ok (state,
        { queues := tq.queues.set thread_with_tasks rest
          size_ := tq.size_ - 1
          quota_ := if state.has_quota then tq.quota_ + 1 else tq.quota_ })

/-- `TaskQueue::size`. -/
def TaskQueue.size (tq : TaskQueue) : Nat := tq.size_

/-- `TaskQueue::empty`. -/
def TaskQueue.isQueueEmpty (tq : TaskQueue) : Bool := tq.size_ == 0

/-- `TaskQueue::quota`. -/
def TaskQueue.quota (tq : TaskQueue) : Nat := tq.quota_

/-- Total number of tasks actually held across the per-thread queues. -/
def totalTasks (queues : List (List ExecutionState)) : Nat :=
  (queues.map List.length).sum

/-- The size counter agrees with the actual queue contents. -/
def TaskQueue.consistent (tq : TaskQueue) : Prop :=
  tq.size_ = totalTasks tq.queues

instance (tq : TaskQueue) : Decidable tq.consistent := by
  unfold TaskQueue.consistent; infer_instance

/-! Helper lemmas about `List.getD` and `List.set`, used to reason about
`queues[i]` accesses. -/

theorem getD_set_self {α : Type} (l : List α) (i : Nat) (x d : α)
    (h : i < l.length) : (l.set i x).getD i d = x := by
  induction l generalizing i with
  | nil => simp at h
  | cons a t ih =>
    cases i with
    | zero => simp [List.getD]
    | succ n =>
      simp only [List.set, List.getD, List.getElem?_cons_succ]
      have := ih n (by simpa using Nat.lt_of_succ_lt_succ h)
      simpa [List.getD] using this

theorem getD_set_ne {α : Type} (l : List α) (i j : Nat) (x d : α)
    (hij : i ≠ j) : (l.set i x).getD j d = l.getD j d := by
  induction l generalizing i j with
  | nil => simp
  | cons a t ih =>
    cases i with
    | zero =>
      cases j with
      | zero => exact absurd rfl hij
      | succ m => simp [List.getD]
    | succ n =>
      cases j with
      | zero => simp [List.getD]
      | succ m =>
        simp only [List.set, List.getD, List.getElem?_cons_succ]
        have := ih n m (fun he => hij (by rw [he]))
        simpa [List.getD] using this

theorem lt_length_of_getD_cons {α : Type} (l : List (List α)) (i : Nat)
    (x : α) (xs : List α) (h : l.getD i [] = x :: xs) : i < l.length := by
  by_contra hge
  rw [List.getD_eq_default] at h
  · exact List.noConfusion h
  · omega

/-! Characterization of the wrapping scan in `getAnyThreadWithTasks`. -/

/-- Running the scan loop from an in-range start index either fails with the
logical error having seen only empty queues among the probed wrap-around
positions, or returns the first position in wrap order whose queue is
non-empty. -/
theorem scanLoop_char (queues : List (List ExecutionState)) :
    ∀ (fuel ft : Nat), ft < queues.length →
      (TaskQueue.scanLoop queues ft fuel = .error "TaskQueue is empty." ∧
        ∀ j, j < fuel → queues.getD ((ft + j) % queues.length) [] = [])
      ∨ (∃ j, j < fuel ∧
          TaskQueue.scanLoop queues ft fuel = .ok ((ft + j) % queues.length) ∧
          queues.getD ((ft + j) % queues.length) [] ≠ [] ∧
          ∀ k, k < j → queues.getD ((ft + k) % queues.length) [] = []) := by
  intro fuel
  induction fuel with
  | zero =>
    intro ft _
    left
    exact ⟨rfl, fun j hj => absurd hj (Nat.not_lt_zero j)⟩
  | succ n ih =>
    intro ft hft
    have hmodft : ft % queues.length = ft := Nat.mod_eq_of_lt hft
    by_cases hq : (queues.getD ft []).isEmpty = false
    · right
      refine ⟨0, Nat.succ_pos n, ?_, ?_, fun k hk => absurd hk (Nat.not_lt_zero k)⟩
      · show TaskQueue.scanLoop queues ft (n + 1) = _
        rw [TaskQueue.scanLoop, if_pos hq]
        rw [Nat.add_zero, hmodft]
      · rw [Nat.add_zero, hmodft]
        intro hnil
        rw [hnil] at hq
        simp at hq
    · have hempty : queues.getD ft [] = [] := by
        rcases List.isEmpty_iff.mp (Bool.eq_true_of_not_eq_false hq) with h
        exact h
      have hlenpos : 0 < queues.length := Nat.lt_of_le_of_lt (Nat.zero_le ft) hft
      have hstep : TaskQueue.scanLoop queues ft (n + 1) =
          TaskQueue.scanLoop queues
            (if queues.length ≤ ft + 1 then 0 else ft + 1) n := by
        rw [TaskQueue.scanLoop, if_neg hq]
      have hmod : (if queues.length ≤ ft + 1 then 0 else ft + 1)
          = (ft + 1) % queues.length := by
        by_cases h : queues.length ≤ ft + 1
        · have : ft + 1 = queues.length := by omega
          rw [if_pos h, this, Nat.mod_self]
        · rw [if_neg h, Nat.mod_eq_of_lt (by omega)]
      have hft' : (if queues.length ≤ ft + 1 then 0 else ft + 1)
          < queues.length := by
        rw [hmod]; exact Nat.mod_lt _ hlenpos
      have hshift : ∀ j,
          ((if queues.length ≤ ft + 1 then 0 else ft + 1) + j) % queues.length
            = (ft + (j + 1)) % queues.length := by
        intro j
        rw [hmod, Nat.mod_add_mod]
        congr 1
        omega
      rcases ih _ hft' with ⟨herr, hall⟩ | ⟨j, hj, hok, hne, hpre⟩
      · left
        refine ⟨by rw [hstep]; exact herr, ?_⟩
        intro j hj
        cases j with
        | zero => rw [Nat.add_zero, hmodft]; exact hempty
        | succ k =>
          have := hall k (by omega)
          rw [hshift k] at this
          exact this
      · right
        refine ⟨j + 1, by omega, ?_, ?_, ?_⟩
        · rw [hstep, hok, hshift j]
        · rw [← hshift j]; exact hne
        · intro k hk
          cases k with
          | zero => rw [Nat.add_zero, hmodft]; exact hempty
          | succ m =>
            have := hpre m (by omega)
            rw [hshift m] at this
            exact this

/-- Every index below `n` is reached by the wrap-around scan within `n`
steps from any in-range start. -/
theorem wrap_reaches (n ft i : Nat) (hft : ft < n) (hi : i < n) :
    ∃ j, j < n ∧ (ft + j) % n = i := by
  have hnpos : 0 < n := Nat.lt_of_le_of_lt (Nat.zero_le ft) hft
  refine ⟨(n + i - ft) % n, Nat.mod_lt _ hnpos, ?_⟩
  have h1 : (ft + (n + i - ft) % n) % n = (ft + (n + i - ft)) % n := by
    rw [Nat.add_mod, Nat.mod_mod_of_dvd _ (dvd_refl n), ← Nat.add_mod]
  rw [h1]
  have h2 : ft + (n + i - ft) = n + i := by omega
  rw [h2, Nat.add_comm n i, Nat.add_mod_right]
  exact Nat.mod_eq_of_lt hi

/-- If every per-thread queue is empty, the total task count is zero. -/
theorem totalTasks_eq_zero_of_all_empty (queues : List (List ExecutionState))
    (h : ∀ i, i < queues.length → queues.getD i [] = []) :
    totalTasks queues = 0 := by
  induction queues with
  | nil => rfl
  | cons q t ih =>
    have h0 : q = [] := by
      have := h 0 (by simp)
      simpa [List.getD] using this
    have ht : ∀ i, i < t.length → t.getD i [] = [] := by
      intro i hi
      have := h (i + 1) (by simp; omega)
      simpa [List.getD] using this
    simp [totalTasks, h0]
    simpa [totalTasks] using ih ht

/-! Lemmas about `pop`. -/

/-- Popping with a non-empty own queue takes that queue's front (the scan
hits `thread_num` immediately). -/
theorem pop_own_front (tq : TaskQueue) (t : Nat) (s : ExecutionState)
    (rest : List ExecutionState) (ht : t < tq.queues.length)
    (hq : tq.queues.getD t [] = s :: rest) (hs : tq.size_ ≠ 0) :
    tq.pop t = .ok (s,
      { queues := tq.queues.set t rest
        size_ := tq.size_ - 1
        quota_ := if s.has_quota then tq.quota_ + 1 else tq.quota_ }) := by
  have hscan : tq.getAnyThreadWithTasks t = .ok t := by
    rw [TaskQueue.getAnyThreadWithTasks, if_neg hs]
    rcases hlen : tq.queues.length with _ | m
    · omega
    · rw [TaskQueue.scanLoop, if_pos (by rw [hq]; rfl)]
  rw [TaskQueue.pop, hscan]
  dsimp only
  rw [hq]

/-- With the size counter consistent with the contents and non-zero, the
scan phase of `pop` succeeds and finds the first non-empty queue in wrap
order from the starting thread. -/
theorem scan_finds (tq : TaskQueue) (thread_num : Nat)
    (hn : thread_num < tq.queues.length) (hc : tq.consistent)
    (hpos : 0 < tq.size_) :
    ∃ j, j < tq.queues.length ∧
      tq.getAnyThreadWithTasks thread_num
        = .ok ((thread_num + j) % tq.queues.length) ∧
      tq.queues.getD ((thread_num + j) % tq.queues.length) [] ≠ [] ∧
      ∀ k, k < j →
        tq.queues.getD ((thread_num + k) % tq.queues.length) [] = [] := by
  rcases scanLoop_char tq.queues tq.queues.length thread_num hn with
    ⟨_, hall⟩ | ⟨j, hj, hok, hne, hpre⟩
  · exfalso
    have hallidx : ∀ i, i < tq.queues.length → tq.queues.getD i [] = [] := by
      intro i hi
      rcases wrap_reaches tq.queues.length thread_num i hn hi with ⟨j, hj, hji⟩
      have := hall j hj
      rw [hji] at this
      exact this
    have := totalTasks_eq_zero_of_all_empty tq.queues hallidx
    rw [TaskQueue.consistent] at hc
    omega
  · refine ⟨j, hj, ?_, hne, hpre⟩
    rw [TaskQueue.getAnyThreadWithTasks, if_neg (by omega)]
    exact hok

/-- Any successful `pop` removes the front of some queue and updates the
counters exactly as the source does (`--size_`, `++quota_` when flagged). -/
theorem pop_ok_shape (tq : TaskQueue) (t : Nat) (s : ExecutionState)
    (tq2 : TaskQueue) (h : tq.pop t = .ok (s, tq2)) :
    ∃ idx rest, tq.queues.getD idx [] = s :: rest ∧
      tq2 = { queues := tq.queues.set idx rest
              size_ := tq.size_ - 1
              quota_ := if s.has_quota then tq.quota_ + 1 else tq.quota_ } := by
  rw [TaskQueue.pop] at h
  rcases hg : tq.getAnyThreadWithTasks t with e | idx
  · rw [hg] at h
    exact absurd h (by simp)
  · rw [hg] at h
    dsimp only at h
    rcases hq : tq.queues.getD idx [] with _ | ⟨s0, rest⟩
    · rw [hq] at h
      exact absurd h (by simp)
    · rw [hq] at h
      dsimp only at h
      have hinj := Except.ok.inj h
      have hs0 : s0 = s := congrArg Prod.fst hinj
      have htq : tq2 = _ := (congrArg Prod.snd hinj).symm
      subst hs0
      exact ⟨idx, rest, hq, htq⟩

/-! Lemmas about the total task count under `set`. -/

theorem totalTasks_cons (q : List ExecutionState)
    (t : List (List ExecutionState)) :
    totalTasks (q :: t) = q.length + totalTasks t := by
  simp [totalTasks]

theorem getD_cons_succ (q : List ExecutionState)
    (t : List (List ExecutionState)) (n : Nat) :
    (q :: t).getD (n + 1) [] = t.getD n [] := by
  simp [List.getD]

theorem totalTasks_set_append (queues : List (List ExecutionState))
    (i : Nat) (s : ExecutionState) (h : i < queues.length) :
    totalTasks (queues.set i (queues.getD i [] ++ [s]))
      = totalTasks queues + 1 := by
  induction queues generalizing i with
  | nil => simp at h
  | cons q t ih =>
    cases i with
    | zero =>
      have hgd : (q :: t).getD 0 [] = q := by simp [List.getD]
      rw [hgd]
      show totalTasks ((q ++ [s]) :: t) = totalTasks (q :: t) + 1
      rw [totalTasks_cons, totalTasks_cons]
      simp
      omega
    | succ n =>
      have hn : n < t.length := by simpa using Nat.lt_of_succ_lt_succ h
      rw [getD_cons_succ]
      show totalTasks (q :: t.set n (t.getD n [] ++ [s]))
        = totalTasks (q :: t) + 1
      rw [totalTasks_cons, totalTasks_cons, ih n hn]
      omega

theorem totalTasks_set_tail (queues : List (List ExecutionState))
    (i : Nat) (s : ExecutionState) (rest : List ExecutionState)
    (h : queues.getD i [] = s :: rest) :
    totalTasks (queues.set i rest) + 1 = totalTasks queues := by
  induction queues generalizing i with
  | nil =>
    simp [List.getD] at h
  | cons q t ih =>
    cases i with
    | zero =>
      have hq : q = s :: rest := by simpa [List.getD] using h
      show totalTasks (rest :: t) + 1 = totalTasks (q :: t)
      rw [totalTasks_cons, totalTasks_cons, hq]
      simp
      omega
    | succ n =>
      have ht : t.getD n [] = s :: rest := by
        rw [← getD_cons_succ q t n]; exact h
      show totalTasks (q :: t.set n rest) + 1 = totalTasks (q :: t)
      rw [totalTasks_cons, totalTasks_cons, ← ih n ht]
      omega

/-! Claim theorems about the task queue. -/

/-- Claim C1 (code bug): the claim states that popping a quota-bearing task
decreases the quota count by one. The source instead executes `++quota_` in
`pop` (line 180), so after pushing one quota-bearing task and popping it
again the quota counter reads 2, not 0: the counter is incremented on both
push and pop and therefore does not track the number of quota-bearing tasks
currently queued. -/
theorem C1_pop_increments_quota :
    ((TaskQueue.init 1).push ({ has_quota := true } : ExecutionState) 0).pop 0
      = .ok (({ has_quota := true } : ExecutionState),
             { queues := [[]], size_ := 0, quota_ := 2 }) := rfl

/-- Claim C3: with the size counter consistent and non-zero, `pop(thread_num)`
scans the per-thread queues starting at `thread_num`, wrapping around, and
returns (removing it) the front task of the first non-empty queue
encountered; in particular a non-empty own queue yields its own front. -/
theorem C3_pop_round_robin_scan (tq : TaskQueue) (thread_num : Nat)
    (hn : thread_num < tq.queues.length) (hc : tq.consistent)
    (hpos : 0 < tq.size_) :
    (∃ j, j < tq.queues.length ∧
      (∀ k, k < j →
        tq.queues.getD ((thread_num + k) % tq.queues.length) [] = []) ∧
      ∃ s rest,
        tq.queues.getD ((thread_num + j) % tq.queues.length) [] = s :: rest ∧
        tq.pop thread_num = .ok (s,
          { queues := tq.queues.set ((thread_num + j) % tq.queues.length) rest
            size_ := tq.size_ - 1
            quota_ := if s.has_quota then tq.quota_ + 1 else tq.quota_ })) ∧
    (∀ s rest, tq.queues.getD thread_num [] = s :: rest →
      tq.pop thread_num = .ok (s,
        { queues := tq.queues.set thread_num rest
          size_ := tq.size_ - 1
          quota_ := if s.has_quota then tq.quota_ + 1 else tq.quota_ })) := by
  constructor
  · rcases scan_finds tq thread_num hn hc hpos with ⟨j, hj, hscan, hne, hpre⟩
    refine ⟨j, hj, hpre, ?_⟩
    rcases hq : tq.queues.getD ((thread_num + j) % tq.queues.length) []
      with _ | ⟨s, rest⟩
    · exact absurd hq hne
    · refine ⟨s, rest, rfl, ?_⟩
      rw [TaskQueue.pop, hscan]
      dsimp only
      rw [hq]
  · intro s rest hq
    exact pop_own_front tq thread_num s rest hn hq (by omega)

/-- Witness for C3 at a concrete queue state. -/
theorem C3_pop_round_robin_scan_witness :
    ({ queues := [[({ processors_id := 7 } : ExecutionState)]]
       size_ := 1, quota_ := 0 } : TaskQueue).pop 0
      = .ok (({ processors_id := 7 } : ExecutionState),
             { queues := [[]], size_ := 0, quota_ := 0 }) := by
  have h := (C3_pop_round_robin_scan
    ({ queues := [[({ processors_id := 7 } : ExecutionState)]]
       size_ := 1, quota_ := 0 } : TaskQueue) 0
    (by decide) (by decide) (by decide)).2
    ({ processors_id := 7 } : ExecutionState) [] (by decide)
  exact h

/-- Claim C4: `pop` yields the logical-error outcome exactly when it is
invoked with the aggregate size counter at zero; with a consistent, positive
size counter it returns a task without error. -/
theorem C4_pop_error_iff_size_zero (tq : TaskQueue) (thread_num : Nat)
    (hn : thread_num < tq.queues.length) (hc : tq.consistent) :
    (∃ e, tq.pop thread_num = .error e) ↔ tq.size_ = 0 := by
  constructor
  · rintro ⟨e, he⟩
    by_contra hsz
    rcases scan_finds tq thread_num hn hc (Nat.pos_of_ne_zero hsz) with
      ⟨j, _, hscan, hne, _⟩
    rcases hq : tq.queues.getD ((thread_num + j) % tq.queues.length) []
      with _ | ⟨s, rest⟩
    · exact hne hq
    · rw [TaskQueue.pop, hscan] at he
      dsimp only at he
      rw [hq] at he
      exact absurd he (by simp)
  · intro hsz
    have hg : tq.getAnyThreadWithTasks thread_num
        = .error "TaskQueue is empty." := by
      rw [TaskQueue.getAnyThreadWithTasks, if_pos hsz]
    refine ⟨"TaskQueue is empty.", ?_⟩
    rw [TaskQueue.pop, hg]

/-- Witness for C4 at a concrete empty queue. -/
theorem C4_pop_error_iff_size_zero_witness :
    (∃ e, (TaskQueue.init 1).pop 0 = .error e) ↔ (TaskQueue.init 1).size_ = 0 :=
  C4_pop_error_iff_size_zero (TaskQueue.init 1) 0 (by decide) (by decide)

/-! Sequences of queue operations, for the counter invariant. -/

/-- One scheduler-side operation on the task queue: `push(state, thread_num)`
or `pop(thread_num)`. -/
inductive TQOp where
  | opPush : ExecutionState → Nat → TQOp
  | opPop : Nat → TQOp
deriving DecidableEq, Repr

/-- Apply one operation; an unsuccessful `pop` (the throwing path, which in
the source mutates nothing because the throw happens before any update)
leaves the queue unchanged. -/
def TaskQueue.applyOp (tq : TaskQueue) : TQOp → TaskQueue
  | .opPush s t => tq.push s t
  | .opPop t =>
    match tq.pop t with
    | .ok (_, tq2) => tq2
    | .error _ => tq

/-- Run a sequence of operations left to right. -/
def TaskQueue.runOps (tq : TaskQueue) (ops : List TQOp) : TaskQueue :=
  ops.foldl TaskQueue.applyOp tq

/-- A push targets an existing per-thread queue (callers always use a thread
number below `num_threads`; an out-of-range vector access is undefined
behaviour in the source). -/
def TQOp.inRange (n : Nat) : TQOp → Prop
  | .opPush _ t => t < n
  | .opPop _ => True

instance (n : Nat) (op : TQOp) : Decidable (op.inRange n) :=
  match op with
  | .opPush _ t => Nat.decLt t n
  | .opPop _ => isTrue trivial

theorem push_consistent (tq : TaskQueue) (s : ExecutionState) (t : Nat)
    (ht : t < tq.queues.length) (hc : tq.consistent) :
    (tq.push s t).consistent := by
  rw [TaskQueue.consistent] at hc ⊢
  show tq.size_ + 1 = totalTasks (tq.queues.set t (tq.queues.getD t [] ++ [s]))
  rw [totalTasks_set_append tq.queues t s ht, ← hc]

theorem applyOp_preserves (tq : TaskQueue) (op : TQOp) (n : Nat)
    (hlen : tq.queues.length = n) (hop : op.inRange n) (hc : tq.consistent) :
    (tq.applyOp op).queues.length = n ∧ (tq.applyOp op).consistent := by
  cases op with
  | opPush s t =>
    have hop' : t < n := hop
    refine ⟨?_, push_consistent tq s t (by omega) hc⟩
    show (tq.queues.set t _).length = n
    rw [List.length_set, hlen]
  | opPop t =>
    rcases hp : tq.pop t with e | ⟨s, tq2⟩
    · have happ : tq.applyOp (TQOp.opPop t) = tq := by
        simp [TaskQueue.applyOp, hp]
      rw [happ]
      exact ⟨hlen, hc⟩
    · have happ : tq.applyOp (TQOp.opPop t) = tq2 := by
        simp [TaskQueue.applyOp, hp]
      rw [happ]
      rcases pop_ok_shape tq t s tq2 hp with ⟨idx, rest, hq, htq2⟩
      have htot := totalTasks_set_tail tq.queues idx s rest hq
      rw [TaskQueue.consistent] at hc
      constructor
      · rw [htq2]
        show (tq.queues.set idx rest).length = n
        rw [List.length_set, hlen]
      · rw [htq2, TaskQueue.consistent]
        show tq.size_ - 1 = totalTasks (tq.queues.set idx rest)
        omega

theorem runOps_preserves (n : Nat) (ops : List TQOp)
    (hops : ∀ op ∈ ops, op.inRange n) (tq : TaskQueue)
    (hlen : tq.queues.length = n) (hc : tq.consistent) :
    (tq.runOps ops).queues.length = n ∧ (tq.runOps ops).consistent := by
  induction ops generalizing tq with
  | nil => exact ⟨hlen, hc⟩
  | cons op rest ih =>
    have h1 := applyOp_preserves tq op n hlen (hops op (by simp)) hc
    exact ih (fun o ho => hops o (by simp [ho])) (tq.applyOp op) h1.1 h1.2

theorem init_consistent (n : Nat) : (TaskQueue.init n).consistent := by
  rw [TaskQueue.consistent]
  show 0 = totalTasks (List.replicate n [])
  induction n with
  | zero => rfl
  | succ m ih => rw [List.replicate_succ, totalTasks_cons, List.length_nil]; omega

/-- Claim C5: after any in-range sequence of pushes and (successful) pops
starting from `init num_threads`, the `size()` accessor equals the actual
number of tasks across the per-thread queues, and `empty()` holds exactly
when that number is zero. -/
theorem C5_size_tracks_contents (n : Nat) (ops : List TQOp)
    (hops : ∀ op ∈ ops, op.inRange n) :
    ((TaskQueue.init n).runOps ops).size
        = totalTasks ((TaskQueue.init n).runOps ops).queues ∧
    (((TaskQueue.init n).runOps ops).isQueueEmpty = true ↔
      totalTasks ((TaskQueue.init n).runOps ops).queues = 0) := by
  have h := runOps_preserves n ops hops (TaskQueue.init n)
    (by rw [TaskQueue.init]; exact List.length_replicate n [])
    (init_consistent n)
  rw [TaskQueue.consistent] at h
  constructor
  · show ((TaskQueue.init n).runOps ops).size_ = _
    exact h.2
  · show (((TaskQueue.init n).runOps ops).size_ == 0) = true ↔ _
    rw [← h.2]
    simp

/-- Witness for C5: two pushes and a pop on a two-thread queue. -/
theorem C5_size_tracks_contents_witness :
    ((TaskQueue.init 2).runOps
        [TQOp.opPush { processors_id := 1 } 0,
         TQOp.opPush { processors_id := 2, has_quota := true } 1,
         TQOp.opPop 0]).size
      = totalTasks ((TaskQueue.init 2).runOps
        [TQOp.opPush { processors_id := 1 } 0,
         TQOp.opPush { processors_id := 2, has_quota := true } 1,
         TQOp.opPop 0]).queues ∧
    (((TaskQueue.init 2).runOps
        [TQOp.opPush { processors_id := 1 } 0,
         TQOp.opPush { processors_id := 2, has_quota := true } 1,
         TQOp.opPop 0]).isQueueEmpty = true ↔
      totalTasks ((TaskQueue.init 2).runOps
        [TQOp.opPush { processors_id := 1 } 0,
         TQOp.opPush { processors_id := 2, has_quota := true } 1,
         TQOp.opPop 0]).queues = 0) :=
  C5_size_tracks_contents 2
    [TQOp.opPush { processors_id := 1 } 0,
     TQOp.opPush { processors_id := 2, has_quota := true } 1,
     TQOp.opPop 0]
    (by decide)

/-- Claim C6: each per-thread queue is FIFO. Pushing keeps order (a later
push lands strictly behind an earlier one in the same thread's queue), a
pop starting at a thread with a non-empty queue removes exactly that
queue's front, and push-then-pop on an empty own queue returns the pushed
task. -/
theorem C6_per_thread_fifo (tq : TaskQueue) (t : Nat)
    (a b : ExecutionState) (ht : t < tq.queues.length) :
    ((tq.push a t).push b t).queues.getD t []
        = tq.queues.getD t [] ++ [a, b] ∧
    (∀ s rest, tq.queues.getD t [] = s :: rest → tq.size_ ≠ 0 →
      tq.pop t = .ok (s,
        { queues := tq.queues.set t rest
          size_ := tq.size_ - 1
          quota_ := if s.has_quota then tq.quota_ + 1 else tq.quota_ })) ∧
    (tq.queues.getD t [] = [] →
      (tq.push a t).pop t = .ok (a,
        { queues := (tq.push a t).queues.set t []
          size_ := (tq.push a t).size_ - 1
          quota_ := if a.has_quota then (tq.push a t).quota_ + 1
                    else (tq.push a t).quota_ })) := by
  refine ⟨?_, ?_, ?_⟩
  · show ((tq.queues.set t (tq.queues.getD t [] ++ [a])).set t
        ((tq.queues.set t (tq.queues.getD t [] ++ [a])).getD t [] ++ [b])).getD t []
        = tq.queues.getD t [] ++ [a, b]
    rw [getD_set_self _ _ _ _ (by rw [List.length_set]; exact ht),
        getD_set_self _ _ _ _ ht]
    simp
  · intro s rest hq hs
    exact pop_own_front tq t s rest ht hq hs
  · intro hq
    have hq2 : (tq.push a t).queues.getD t [] = a :: [] := by
      show (tq.queues.set t (tq.queues.getD t [] ++ [a])).getD t [] = a :: []
      rw [getD_set_self _ _ _ _ ht, hq]
      rfl
    exact pop_own_front (tq.push a t) t a []
      (by show (tq.queues.set t _).length > t; rw [List.length_set]; exact ht)
      hq2 (by show tq.size_ + 1 ≠ 0; omega)

/-- Witness for C6 at a concrete queue state. -/
theorem C6_per_thread_fifo_witness :
    (((TaskQueue.init 1).push ({ processors_id := 3 } : ExecutionState)
        0).push ({ processors_id := 4 } : ExecutionState) 0).queues.getD 0 []
      = [({ processors_id := 3 } : ExecutionState),
         ({ processors_id := 4 } : ExecutionState)] := by
  have h := (C6_per_thread_fifo (TaskQueue.init 1)
    0 ({ processors_id := 3 } : ExecutionState)
    ({ processors_id := 4 } : ExecutionState) (by decide)).1
  simpa using h

/-! The node/edge data model (PipelineExecutor.h, lines 44-133). -/

/-- Embedding of `Port::UpdateInfo` as stored in an edge: the pointer to
the update list and the self pointer `id`, both as identities. -/
structure UpdateInfo where
  update_list : Nat
  id : Nat
deriving DecidableEq, Repr

/-- Embedding of `struct Edge` (lines 44-63). -/
structure Edge where
  «to» : Nat
  backward : Bool
  input_port_number : Nat
  output_port_number : Nat
  update_info : UpdateInfo
deriving DecidableEq, Repr

/-- Embedding of `enum class ExecStatus` (lines 70-77). -/
inductive ExecStatus where
  | Idle
  | Preparing
  | Executing
  | Finished
  | Async
deriving DecidableEq, Repr

/-- The processor status values used for `last_processor_status`
(`IProcessor::Status`; its default in the Node is `NeedData`, line 108). -/
inductive PStatus where
  | NeedData
  | PortFull
  | Finished
  | Ready
  | Async
  | ExpandPipeline
deriving DecidableEq, Repr

/-- The scheduler-visible face of an `IProcessor`: an identity and the
resource-quota flag returned by `hasQuota()`. -/
structure IProcessor where
  pid : Nat
  hasQuota : Bool
deriving DecidableEq, Repr

/-- Embedding of `struct Node` (lines 95-129). The `unique_ptr` to the
execution state is held by value; `status_mutex` carries no data. -/
structure Node where
  processor : IProcessor
  directEdges : List Edge
  backEdges : List Edge
  status : ExecStatus
  post_updated_input_ports : List Nat
  post_updated_output_ports : List Nat
  last_processor_status : PStatus
  execution_state : ExecutionState
  updated_input_ports : List Nat
  updated_output_ports : List Nat
deriving DecidableEq, Repr

/-- Query `processor->hasQuota()` while counting how often the flag is
consulted, so that "queried exactly once" is provable. -/
def IProcessor.hasQuotaQuery (p : IProcessor) : StateM Nat Bool := do
  modify (· + 1)
  pure p.hasQuota

/-- Embedding of the `Node(IProcessor *, UInt64)` constructor (lines
115-122): status starts `Idle`, the execution state is created with the
node, bound to the processor and the node id, and `has_quota` is filled by
one `hasQuota()` call; every other field is default-initialized. The state
monad counts the `hasQuota()` queries. -/
def Node.constructM (processor : IProcessor) (processor_id : Nat) :
    StateM Nat Node := do
  let q ← processor.hasQuotaQuery
  pure
    { processor := processor
      directEdges := []
      backEdges := []
      status := ExecStatus.Idle
      post_updated_input_ports := []
      post_updated_output_ports := []
      last_processor_status := PStatus.NeedData
      execution_state :=
        { exception := none
          job := none
          processor := processor.pid
          processors_id := processor_id
          has_quota := q
          num_executed_jobs := 0
          execution_time_ns := 0
          preparation_time_ns := 0 }
      updated_input_ports := []
      updated_output_ports := [] }

/-- Embedding of the move constructor `Node(Node &&)` (lines 124-128): only
`processor`, `status` and `execution_state` are taken from the source node;
every other member is default-initialized (the member-init lists of the
struct), i.e. the edge lists and the port lists come out empty. -/
def Node.moveConstruct (other : Node) : Node :=
  { processor := other.processor
    directEdges := []
    backEdges := []
    status := other.status
    post_updated_input_ports := []
    post_updated_output_ports := []
    last_processor_status := PStatus.NeedData
    execution_state := other.execution_state
    updated_input_ports := []
    updated_output_ports := [] }

/-! Claims about nodes. -/

/-- A node with one direct edge, used to exhibit what the move constructor
drops. -/
def nodeWithEdge : Node :=
  { processor := { pid := 0, hasQuota := false }
    directEdges := [{ «to» := 1, backward := false, input_port_number := 0,
                      output_port_number := 0,
                      update_info := { update_list := 0, id := 0 } }]
    backEdges := []
    status := ExecStatus.Idle
    post_updated_input_ports := [5]
    post_updated_output_ports := []
    last_processor_status := PStatus.NeedData
    execution_state := {}
    updated_input_ports := []
    updated_output_ports := [] }

/-- Claim C2 counterexample: moving a node does NOT keep its `directEdges`
(nor its pending port lists) — the move constructor (lines 124-128) takes
only `processor`, `status` and `execution_state` and default-initializes
the rest, so a node with an edge loses it when the `Nodes` vector
relocates. -/
theorem C2_move_counterexample :
    ¬ ((Node.moveConstruct nodeWithEdge).directEdges
          = nodeWithEdge.directEdges ∧
       (Node.moveConstruct nodeWithEdge).backEdges
          = nodeWithEdge.backEdges ∧
       (Node.moveConstruct nodeWithEdge).post_updated_input_ports
          = nodeWithEdge.post_updated_input_ports ∧
       (Node.moveConstruct nodeWithEdge).post_updated_output_ports
          = nodeWithEdge.post_updated_output_ports ∧
       (Node.moveConstruct nodeWithEdge).updated_input_ports
          = nodeWithEdge.updated_input_ports ∧
       (Node.moveConstruct nodeWithEdge).updated_output_ports
          = nodeWithEdge.updated_output_ports) := by
  decide

/-- Claim C2 (amended): moving a Node preserves its processor reference,
its status and its execution state (so a node identifier keeps denoting
the same processor and state), but the edge lists and all four port lists
of the moved-to node are reset to empty rather than carried over. -/
theorem C2_move_preserves_core (node : Node) :
    (Node.moveConstruct node).processor = node.processor ∧
    (Node.moveConstruct node).status = node.status ∧
    (Node.moveConstruct node).execution_state = node.execution_state ∧
    (Node.moveConstruct node).directEdges = [] ∧
    (Node.moveConstruct node).backEdges = [] ∧
    (Node.moveConstruct node).post_updated_input_ports = [] ∧
    (Node.moveConstruct node).post_updated_output_ports = [] ∧
    (Node.moveConstruct node).updated_input_ports = [] ∧
    (Node.moveConstruct node).updated_output_ports = [] :=
  ⟨rfl, rfl, rfl, rfl, rfl, rfl, rfl, rfl, rfl⟩

/-- Claim C7: a freshly constructed node is `Idle`, its execution state is
created with the node and bound to the given processor and node id with an
empty fault slot, its quota flag holds the processor's `hasQuota()` value,
and `hasQuota()` is consulted exactly once during construction. -/
theorem C7_node_creation (p : IProcessor) (processor_id : Nat) :
    ((Node.constructM p processor_id).run 0).1.status = ExecStatus.Idle ∧
    ((Node.constructM p processor_id).run 0).1.execution_state.processor
        = p.pid ∧
    ((Node.constructM p processor_id).run 0).1.execution_state.processors_id
        = processor_id ∧
    ((Node.constructM p processor_id).run 0).1.execution_state.has_quota
        = p.hasQuota ∧
    ((Node.constructM p processor_id).run 0).1.execution_state.exception
        = none ∧
    ((Node.constructM p processor_id).run 0).2 = 1 :=
  ⟨rfl, rfl, rfl, rfl, rfl, rfl⟩

/-! Construction-time graph validation (claim C8). -/

/-- Modelled from the spec: the shape of a processor as `buildGraph` sees
it — an identity plus, for each input and output port, the identity of
the connected peer processor, or `none` for a dangling port. The bodies of
`PipelineExecutor::PipelineExecutor` and `buildGraph` are only declared in
the header (lines 27 and 247). -/
structure ProcPorts where
  pid : Nat
  inputs : List (Option Nat)
  outputs : List (Option Nat)
deriving DecidableEq, Repr

/-- Every port in the list has a connected peer that belongs to the set. -/
def portsOk (pids : List Nat) (ports : List (Option Nat)) : Bool :=
  ports.all fun c =>
    match c with
    | none => false
    | some peer => pids.contains peer

/-- The executor value produced by a successful construction; no worker
thread exists before `execute` is called. -/
structure Executor where
  graph_pids : List Nat
  threads_spawned : Nat
deriving DecidableEq, Repr

/-- Modelled from the spec: constructing the executor validates the graph
(§4.1 and §7): it fails with a structural error if any port of any
processor has no connected peer or a peer outside the supplied set, and
otherwise yields an executor that has spawned no thread yet. -/
def PipelineExecutor.construct (processors : List ProcPorts) :
    Except String Executor :=
  let pids := processors.map ProcPorts.pid
  if processors.all (fun p => portsOk pids p.inputs && portsOk pids p.outputs)
  then .ok { graph_pids := pids, threads_spawned := 0 }
  else .error "structural error"

/-- A port is dangling or points outside the set — the spec's failure
condition, written from its words. -/
def hasStructuralDefect (processors : List ProcPorts) : Prop :=
  ∃ p ∈ processors, ∃ c ∈ p.inputs ++ p.outputs,
    (c = none ∨ ∃ peer, c = some peer ∧ peer ∉ processors.map ProcPorts.pid)

/-- Claim C8: construction fails with a structural error exactly when some
port is unconnected or some peer is missing from the supplied set, no
executor value exists on failure, and a successful construction has
spawned no worker thread. -/
theorem C8_construction_validates (processors : List ProcPorts) :
    ((∃ e, PipelineExecutor.construct processors = .error e) ↔
      hasStructuralDefect processors) ∧
    (∀ ex, PipelineExecutor.construct processors = .ok ex →
      ex.threads_spawned = 0) := by
  have hcm : ∀ (l : List Nat) (a : Nat), l.contains a = true ↔ a ∈ l := by
    intro l a
    constructor
    · intro h; simpa using h
    · intro h; simpa using h
  have key : (processors.all (fun p =>
      portsOk (processors.map ProcPorts.pid) p.inputs &&
      portsOk (processors.map ProcPorts.pid) p.outputs) = true) ↔
      ¬ hasStructuralDefect processors := by
    rw [List.all_eq_true]
    constructor
    · rintro hall ⟨p, hp, c, hc, hbad⟩
      have hboth := hall p hp
      rw [Bool.and_eq_true] at hboth
      obtain ⟨hok1, hok2⟩ := hboth
      rw [portsOk, List.all_eq_true] at hok1 hok2
      rcases hbad with hnone | ⟨peer, hpeer, hnotin⟩
      · subst hnone
        rcases List.mem_append.mp hc with hin | hout
        · exact Bool.false_ne_true (hok1 none hin)
        · exact Bool.false_ne_true (hok2 none hout)
      · subst hpeer
        rcases List.mem_append.mp hc with hin | hout
        · exact hnotin ((hcm _ _).mp (hok1 (some peer) hin))
        · exact hnotin ((hcm _ _).mp (hok2 (some peer) hout))
    · intro hnd p hp
      rw [Bool.and_eq_true]
      constructor
      · rw [portsOk, List.all_eq_true]
        intro c hc
        rcases c with _ | peer
        · exact absurd ⟨p, hp, none, List.mem_append_left _ hc, Or.inl rfl⟩ hnd
        · rcases hpeers : (processors.map ProcPorts.pid).contains peer with _ | _
          · exact absurd ⟨p, hp, some peer, List.mem_append_left _ hc,
              Or.inr ⟨peer, rfl, fun hmem =>
                Bool.false_ne_true (hpeers ▸ (hcm _ _).mpr hmem)⟩⟩ hnd
          · exact hpeers
      · rw [portsOk, List.all_eq_true]
        intro c hc
        rcases c with _ | peer
        · exact absurd ⟨p, hp, none, List.mem_append_right _ hc, Or.inl rfl⟩ hnd
        · rcases hpeers : (processors.map ProcPorts.pid).contains peer with _ | _
          · exact absurd ⟨p, hp, some peer, List.mem_append_right _ hc,
              Or.inr ⟨peer, rfl, fun hmem =>
                Bool.false_ne_true (hpeers ▸ (hcm _ _).mpr hmem)⟩⟩ hnd
          · exact hpeers
  constructor
  · constructor
    · rintro ⟨e, he⟩
      by_contra hnd
      rw [PipelineExecutor.construct] at he
      rw [if_pos (key.mpr hnd)] at he
      exact Except.noConfusion he
    · intro hd
      refine ⟨"structural error", ?_⟩
      rw [PipelineExecutor.construct, if_neg]
      intro hall
      exact key.mp hall hd
  · intro ex hex
    rw [PipelineExecutor.construct] at hex
    by_cases hall : processors.all (fun p =>
        portsOk (processors.map ProcPorts.pid) p.inputs &&
        portsOk (processors.map ProcPorts.pid) p.outputs) = true
    · rw [if_pos hall] at hex
      have := Except.ok.inj hex
      rw [← this]
    · rw [if_neg hall] at hex
      exact Except.noConfusion hex

/-- Witness for C8: a fully connected two-processor set constructs an
executor with no thread spawned. -/
theorem C8_construction_validates_witness :
    ({ graph_pids := [0, 1], threads_spawned := 0 } : Executor).threads_spawned
      = 0 :=
  (C8_construction_validates
    [{ pid := 0, inputs := [], outputs := [some 1] },
     { pid := 1, inputs := [some 0], outputs := [] }]).2
    { graph_pids := [0, 1], threads_spawned := 0 } rfl

/-! Fault capture and surfacing (claim C9). -/

/-- Modelled from the spec: the job-running step of the worker loop
(`executeSingleThread`, declared line 265, body in the missing translation
unit). Per the spec a fault thrown by the job is captured into the
execution state's deferred-exception slot rather than propagated, and the
job counter is bumped; the function is total, so no fault crosses the
thread boundary. -/
def runJob (st : ExecutionState) (result : Except Nat Unit) : ExecutionState :=
  match result with
  | .ok _ => { st with num_executed_jobs := st.num_executed_jobs + 1 }
  | .error f =>
    { st with exception := some f
              num_executed_jobs := st.num_executed_jobs + 1 }

/-- Modelled from the spec: the fault-surfacing step of `execute` (declared
line 31, body in the missing translation unit). It runs only once every
worker thread has stopped and is therefore modelled as a function of the
final execution states; it rethrows the first captured fault, if any, and
otherwise returns cleanly. -/
def executeJoin (final_states : List ExecutionState) : Except Nat Unit :=
  match final_states.findSome? (fun st => st.exception) with
  | some f => .error f
  | none => .ok ()

theorem findSome_first (states : List ExecutionState) :
    ∀ (i f_id : Nat), i < states.length →
      (states.getD i {}).exception = some f_id →
      (∀ j, j < i → (states.getD j {}).exception = none) →
      states.findSome? (fun st => st.exception) = some f_id := by
  induction states with
  | nil =>
    intro i f_id hi
    simp at hi
  | cons st t ih =>
    intro i f_id hi hexc hpre
    cases i with
    | zero =>
      have h0 : st.exception = some f_id := by
        simpa [List.getD] using hexc
      simp [List.findSome?_cons, h0]
    | succ m =>
      have h0 : st.exception = none := by
        have := hpre 0 (Nat.succ_pos m)
        simpa [List.getD] using this
      have hexc2 : (t.getD m {}).exception = some f_id := by
        simpa [List.getD] using hexc
      have hpre2 : ∀ j, j < m → (t.getD j {}).exception = none := by
        intro j hj
        have := hpre (j + 1) (by omega)
        simpa [List.getD] using this
      have hi2 : m < t.length := by simpa using hi
      rw [List.findSome?_cons]
      simp only [h0]
      exact ih m f_id hi2 hexc2 hpre2

/-- Claim C9: worker faults are captured into the per-state slot (the
job-running step is a total function — nothing propagates across the
thread boundary), and after all workers have stopped the join step
rethrows exactly the first captured fault, as the single surfaced
outcome. -/
theorem C9_first_fault_rethrown (final_states : List ExecutionState)
    (i f_id : Nat) (hi : i < final_states.length)
    (hexc : (final_states.getD i {}).exception = some f_id)
    (hpre : ∀ j, j < i → (final_states.getD j {}).exception = none) :
    (∀ st g, (runJob st (.error g)).exception = some g) ∧
    executeJoin final_states = .error f_id := by
  refine ⟨fun st g => rfl, ?_⟩
  rw [executeJoin, findSome_first final_states i f_id hi hexc hpre]

/-- Witness for C9: of two captured faults the earlier one is surfaced. -/
theorem C9_first_fault_rethrown_witness :
    (∀ st g, (runJob st (.error g)).exception = some g) ∧
    executeJoin
      [({} : ExecutionState),
       ({ exception := some 5 } : ExecutionState),
       ({ exception := some 7 } : ExecutionState)] = .error 5 :=
  C9_first_fault_rethrown
    [({} : ExecutionState),
     ({ exception := some 5 } : ExecutionState),
     ({ exception := some 7 } : ExecutionState)]
    1 5 (by decide) (by decide)
    (fun j hj => by
      cases j with
      | zero => rfl
      | succ m => exact absurd hj (by omega))

/-! Cancellation (claim C10). -/

/-- Embedding of `struct ExecutorContext` (lines 225-236): only the wake
flag carries scheduler-visible data here. -/
structure ExecutorContext where
  wake_flag : Bool
deriving DecidableEq, Repr

/-- The scheduler flags of `PipelineExecutor` (lines 203-204, 238): the two
atomic booleans and the per-thread contexts. -/
structure SchedulerState where
  cancelled : Bool
  finished : Bool
  executor_contexts : List ExecutorContext
deriving DecidableEq, Repr

/-- Modelled from the spec: `cancel()` (declared line 38, body in the
missing translation unit) sets the cancellation flag and wakes every
parked thread, i.e. raises every context's wake flag. -/
def cancel (s : SchedulerState) : SchedulerState :=
  { s with cancelled := true
           executor_contexts :=
             s.executor_contexts.map (fun _ => { wake_flag := true }) }

/-- Claim C10: `cancel` is idempotent — a second call changes nothing — it
sets the cancellation flag, wakes every parked thread, and touches nothing
else (the finished flag is untouched). -/
theorem C10_cancel_idempotent (s : SchedulerState) :
    cancel (cancel s) = cancel s ∧
    (cancel s).cancelled = true ∧
    (cancel s).executor_contexts
      = List.replicate s.executor_contexts.length { wake_flag := true } ∧
    (cancel s).finished = s.finished := by
  refine ⟨?_, rfl, ?_, rfl⟩
  · show SchedulerState.mk true s.finished
        ((s.executor_contexts.map fun _ => ({ wake_flag := true } : ExecutorContext)).map
          fun _ => ({ wake_flag := true } : ExecutorContext))
      = SchedulerState.mk true s.finished
        (s.executor_contexts.map fun _ => ({ wake_flag := true } : ExecutorContext))
    rw [List.map_map]
    rfl
  · show s.executor_contexts.map (fun _ => ({ wake_flag := true } : ExecutorContext))
      = List.replicate s.executor_contexts.length { wake_flag := true }
    induction s.executor_contexts with
    | nil => rfl
    | cons c t ih => rw [List.map_cons, List.length_cons, List.replicate_succ, ih]

end PipelineExec
